import Mathlib

/-!
# Verification of the karaoke time-synchronization core

Shallow embedding of the karaoke repository's sync core:

* `AudioSyncEngine` (src/unnamed/part_001, lines 4-56): the drift-corrected
  secondary clock (`getAccurateTime`, `start`, `pause`, `correctDrift`).
* the progress-percentage computation of the sync loops
  (src/app.js `updateProgress`, src/unnamed/part_001 `startSyncLoop`),
  modelled with explicit IEEE-style non-finite values for division by zero.
* the LRC lyric parsers (src/app.js `parseLrcLyrics`,
  src/unnamed/part_001 `LyricsService.parseLRC`).
* the lyric lookup scans (src/app.js `syncLyricsToTime`,
  src/unnamed/part_001 `App.syncLyrics`).

Times are modelled as exact rationals (`ℚ`): all constants appearing in the
source (`0.1`, `0.2`, `0.3`, `ms/1000`) are exact decimal literals, and the
values manipulated are far from the precision limits of IEEE doubles, so the
rational idealization preserves every comparison the code performs.
-/

namespace Karaoke

/-! ## Data model: lyric events

Lyric events are the `{ time, text }` objects produced by both parsers
(spec §3 `LyricEvent`). -/

structure LyricEvent where
  time : ℚ
  text : String
  deriving DecidableEq, Repr

/-! ## AudioSyncEngine (src/unnamed/part_001, lines 4-37)

The engine's mutable fields are `startTime`, `pausedTime`, `driftCorrection`.
The Web Audio context is represented by passing its `currentTime` value
(`ctxTime`) explicitly to the methods that read it; the modelled states are
those after `init()` has installed the context (the `!this.audioContext`
early-return of `getAccurateTime` is outside these states). -/

structure AudioSyncEngine where
  startTime : ℚ
  pausedTime : ℚ
  driftCorrection : ℚ
  deriving DecidableEq, Repr

/-- Source `getAccurateTime()` (part_001 lines 18-22):
`rawTime = audioContext.currentTime - startTime + pausedTime`;
returns `Math.max(0, rawTime + driftCorrection)`. -/
def getAccurateTime (e : AudioSyncEngine) (ctxTime : ℚ) : ℚ :=
  max 0 (ctxTime - e.startTime + e.pausedTime + e.driftCorrection)

/-- Source `start(currentVideoTime)` (part_001 lines 24-26):
`startTime = audioContext.currentTime - currentVideoTime`. -/
def start (e : AudioSyncEngine) (ctxTime currentVideoTime : ℚ) : AudioSyncEngine :=
  { e with startTime := ctxTime - currentVideoTime }

/-- Source `pause(currentVideoTime)` (part_001 lines 28-30):
`pausedTime = currentVideoTime`. -/
def pause (e : AudioSyncEngine) (currentVideoTime : ℚ) : AudioSyncEngine :=
  { e with pausedTime := currentVideoTime }

/-- Source `correctDrift(videoTime, syncedTime)` (part_001 lines 32-37):
`drift = videoTime - syncedTime`; if `Math.abs(drift) > 0.2` then
`driftCorrection += drift * 0.3`. -/
def correctDrift (e : AudioSyncEngine) (videoTime syncedTime : ℚ) : AudioSyncEngine :=
  let drift := videoTime - syncedTime
  if 0.2 < |drift| then
    { e with driftCorrection := e.driftCorrection + drift * 0.3 }
  else
    e

/-! ## Progress-percentage computation of the sync loops

`updateProgress` (src/app.js lines 165-182) computes
`progress = (currentTime / duration) * 100` and writes `` `${progress}%` ``
into the progress bar's width; `syncFrame` inside `startSyncLoop`
(src/unnamed/part_001 lines 313-335) computes
`progress = (accurateTime / duration) * 100` the same way.  Neither guards
`duration === 0`.  JavaScript number semantics on exact rational operands are
modelled by `JSNum`: division by zero yields `NaN` (for `0/0`) or a signed
infinity, and these non-finite values are absorbing under multiplication by
the positive constant `100`. -/

inductive JSNum where
  | nan : JSNum
  | posInf : JSNum
  | negInf : JSNum
  | fin : ℚ → JSNum
  deriving DecidableEq, Repr

/-- IEEE-754 division restricted to exact rational operands:
`0/0 = NaN`, `x/0 = ±Infinity` for `x ≠ 0`, exact quotient otherwise. -/
def jsDiv (a b : ℚ) : JSNum :=
  if b = 0 then
    if a = 0 then JSNum.nan
    else if 0 < a then JSNum.posInf
    else JSNum.negInf
  else JSNum.fin (a / b)

/-- The `progress` value computed each tick: `(currentTime / duration) * 100`
(app.js line 172; part_001 line 325).  Multiplication by the positive
constant `100` maps `NaN` to `NaN` and `±Infinity` to `±Infinity`. -/
def progressPercent (currentTime duration : ℚ) : JSNum :=
  match jsDiv currentTime duration with
  | JSNum.fin q => JSNum.fin (q * 100)
  | JSNum.nan => JSNum.nan
  | JSNum.posInf => JSNum.posInf
  | JSNum.negInf => JSNum.negInf

/-! ## Lyric lookup scans

`syncLyricsToTime` (src/app.js lines 196-213) runs
`for (let i = syncedLyrics.length - 1; i >= 0; i--)
   if (currentTime >= syncedLyrics[i].time) { newLineIndex = i; break }`
with `newLineIndex` initialised to `-1`.  `App.syncLyrics`
(src/unnamed/part_001 lines 343-362) is the same backward loop with the
condition `currentTime >= this.lyrics.lines[i].time - 0.1`.  A downward loop
over an array is embedded as structural recursion over the reversed list of
event times: the head of the reversed list is the last array element, whose
index equals the length of the remaining reversed tail. -/

/-- The app.js backward scan over the reversed time list:
first (i.e. highest-index) time `t` with `currentTime >= t` wins. -/
def syncScanRev (q : ℚ) : List ℚ → Int
  | [] => -1
  | t :: ts => if t ≤ q then (ts.length : Int) else syncScanRev q ts

/-- Source `syncLyricsToTime(currentTime)` (src/app.js lines 196-213), as a
pure function of the synced-lyric array and the query time. -/
def syncLyricsToTime (lines : List LyricEvent) (q : ℚ) : Int :=
  syncScanRev q (lines.map LyricEvent.time).reverse

/-- The part_001 backward scan: condition `currentTime >= time - 0.1`. -/
def syncLyricsScanRev (q : ℚ) : List ℚ → Int
  | [] => -1
  | t :: ts => if t - 0.1 ≤ q then (ts.length : Int) else syncLyricsScanRev q ts

/-- Source `App.syncLyrics(currentTime)` (src/unnamed/part_001 lines
343-362), as a pure function of the lyric line array and the query time. -/
def syncLyrics (lines : List LyricEvent) (q : ℚ) : Int :=
  syncLyricsScanRev q (lines.map LyricEvent.time).reverse

/-- The events' times are strictly increasing (the claims'
`t0 < t1 < ... < tn` hypothesis). -/
def strictlySortedTimes (lines : List LyricEvent) : Prop :=
  ∀ i j : Fin lines.length, i < j → (lines.get i).time < (lines.get j).time

instance (lines : List LyricEvent) : Decidable (strictlySortedTimes lines) := by
  unfold strictlySortedTimes
  infer_instance

/-! ## LRC parsing

`parseLrcLyrics` (src/app.js lines 368-407) splits the text on `'\n'` and
runs `/\[(\d{2}):(\d{2})\.(\d{2,3})\]/g` over each line, collecting all tag
times; the text after the last tag (`line.slice(lastIndex)`, trimmed) is
attached to every collected time, and the whole list is sorted by time.
`LyricsService.parseLRC` (src/unnamed/part_001 lines 109-125) instead runs
`/\[(\d{1,2}):(\d{2})\.(\d{2,3})\](.*)/g` over the whole text: each match's
trailing `(.*)` capture grabs the rest of the physical line, so scanning
resumes after the line and later tags on the same line are swallowed into
the text.  Regex matching is embedded character by character: `\d` is
`Char.isDigit` (JavaScript `\d` is exactly `[0-9]`), and `exec` with the
`g` flag repeatedly finds the leftmost match at or after the end of the
previous match. -/

/-- Numeric value of a decimal digit character (`parseInt` on digits). -/
def digitVal (c : Char) : ℕ := c.toNat - 48

/-- JavaScript `trim()`: strip leading and trailing whitespace.
(`Char.isWhitespace` covers space, tab, CR and LF — every whitespace
character these inputs can contain.) -/
def trimChars (cs : List Char) : List Char :=
  ((cs.dropWhile Char.isWhitespace).reverse.dropWhile Char.isWhitespace).reverse

/-- JavaScript `text.split('\n')` over the character list: the empty string
yields one empty piece, and a trailing separator yields a trailing empty
piece. -/
def splitLines : List Char → List (List Char)
  | [] => [[]]
  | c :: cs =>
    if c = '\n' then [] :: splitLines cs
    else
      match splitLines cs with
      | [] => [[c]]
      | l :: ls => (c :: l) :: ls

/-- Match the fractional group `(\d{2,3})` followed by `\]`, given its first
two characters `e f` and the remaining characters.  `\d{2,3}` is greedy:
three digits are tried first, then two.  Returns the milliseconds after
`parseInt(frac.padEnd(3, '0'))` (two digits `ef` pad to `ef0`) and the
characters after the closing bracket. -/
def matchFrac (e f : Char) (rest : List Char) : Option (ℕ × List Char) :=
  if e.isDigit && f.isDigit then
    match rest with
    | g :: ']' :: tail =>
      if g.isDigit then some (100 * digitVal e + 10 * digitVal f + digitVal g, tail)
      else if g = ']' then some (100 * digitVal e + 10 * digitVal f, ']' :: tail)
      else none
    | ']' :: tail => some (100 * digitVal e + 10 * digitVal f, tail)
    | _ => none
  else none

/-- Match app.js's tag pattern `\[(\d{2}):(\d{2})\.(\d{2,3})\]` at the
current position; returns the computed time
`mins * 60 + secs + ms / 1000` and the total length of the match
(10 or 11 characters). -/
def matchTagAt (cs : List Char) : Option (ℚ × ℕ) :=
  match cs with
  | '[' :: m1 :: m2 :: ':' :: s1 :: s2 :: '.' :: e :: f :: rest =>
    if m1.isDigit && m2.isDigit && s1.isDigit && s2.isDigit then
      match matchFrac e f rest with
      | some (ms, tail) =>
        some (((10 * digitVal m1 + digitVal m2 : ℕ) : ℚ) * 60
            + ((10 * digitVal s1 + digitVal s2 : ℕ) : ℚ)
            + ((ms : ℕ) : ℚ) / 1000,
          cs.length - tail.length)
      | none => none
    else none
  | _ => none

/-- The per-line `while ((match = timeRegex.exec(line)) !== null)` loop of
`parseLrcLyrics` (app.js lines 374-401).  `exec` with the `g` flag finds the
leftmost match at or after the end of the previous match, so the scan tries
each position in turn and, on a match of length `len`, passes over its
remaining `len - 1` characters (counted by `skip`) before matching again;
`li` tracks the source's `lastIndex` variable (end position of the most
recent match, `0` when no tag has matched yet). -/
def scanTagsAux : List Char → ℕ → ℕ → ℕ → List ℚ × ℕ
  | [], _, _, li => ([], li)
  | _ :: cs, skip + 1, pos, li => scanTagsAux cs skip (pos + 1) li
  | c :: cs, 0, pos, li =>
    match matchTagAt (c :: cs) with
    | some (t, len) =>
      let r := scanTagsAux cs (len - 1) (pos + 1) (pos + len)
      (t :: r.1, r.2)
    | none => scanTagsAux cs 0 (pos + 1) li

/-- Some suffix of the line matches the app.js tag pattern (i.e. the
regex would find at least one tag in the line). -/
def hasTagIn : List Char → Bool
  | [] => false
  | c :: cs => (matchTagAt (c :: cs)).isSome || hasTagIn cs

/-- One line of `parseLrcLyrics`: collect all tag matches, take the text
after the last tag (`line.slice(lastIndex)`, trimmed), and emit one event
per timestamp when that text is non-empty (app.js lines 389-397). -/
def lineEvents (line : List Char) : List LyricEvent :=
  let r := scanTagsAux line 0 0 0
  let text := trimChars (line.drop r.2)
  if text = [] then [] else r.1.map (fun t => { time := t, text := String.mk text })

/-- The comparator `(a, b) => a.time - b.time`: `a` sorts no later than `b`
iff `a.time ≤ b.time`. -/
def evLE (a b : LyricEvent) : Prop := a.time ≤ b.time

instance : DecidableRel evLE := fun a b => inferInstanceAs (Decidable (a.time ≤ b.time))

instance : IsTotal LyricEvent evLE := ⟨fun a b => le_total a.time b.time⟩

instance : IsTrans LyricEvent evLE := ⟨fun _ _ _ h1 h2 => le_trans h1 h2⟩

/-- Source `parsed.sort((a, b) => a.time - b.time)`: `Array.prototype.sort`
is required by ECMA-262 to be stable, and the stable sort by `time` is
exactly insertion sort with `evLE` (each element is inserted after every
earlier element whose time is `≤` its own). -/
def sortEvents (l : List LyricEvent) : List LyricEvent := List.insertionSort evLE l

/-- The unsorted event list pushed by `parseLrcLyrics` (app.js lines
369-401), in input order: split on newlines, scan each line. -/
def parsedRaw (s : String) : List LyricEvent :=
  ((splitLines s.data).map lineEvents).flatten

/-- Source `parseLrcLyrics(lrcText)` (src/app.js lines 368-407). -/
def parseLrcLyrics (s : String) : List LyricEvent := sortEvents (parsedRaw s)

/-- Match part_001's minutes group `(\d{1,2})` followed by `:`: two digits
are tried first (greedy), then one.  The alternatives are distinguished by
the position of the `:`; a one-digit reading can never rescue a failing
two-digit reading later in the tag, because the character after the first
digit would have to be both a digit and `:`. -/
def matchMinutes : List Char → Option (ℕ × List Char)
  | a :: b :: ':' :: rest =>
    if a.isDigit then
      if b.isDigit then some (10 * digitVal a + digitVal b, rest) else none
    else none
  | a :: ':' :: rest => if a.isDigit then some (digitVal a, rest) else none
  | _ => none

/-- Match part_001's tag pattern `\[(\d{1,2}):(\d{2})\.(\d{2,3})\]` at the
current position; returns the computed time and the characters after the
closing bracket. -/
def matchTag2At (cs : List Char) : Option (ℚ × List Char) :=
  match cs with
  | '[' :: rest =>
    match matchMinutes rest with
    | some (m, rest2) =>
      match rest2 with
      | s1 :: s2 :: '.' :: e :: f :: rest3 =>
        if s1.isDigit && s2.isDigit then
          match matchFrac e f rest3 with
          | some (ms, tail) =>
            some ((m : ℚ) * 60 + ((10 * digitVal s1 + digitVal s2 : ℕ) : ℚ)
              + ((ms : ℕ) : ℚ) / 1000, tail)
          | none => none
        else none
      | _ => none
    | none => none
  | _ => none

/-- Characters the trailing `(.*)` capture cannot cross: JavaScript `.`
matches everything except the line terminators LF, CR, U+2028, U+2029. -/
def isLineTerminator (c : Char) : Bool :=
  c = '\n' || c = '\r' || c = '\u2028' || c = '\u2029'

/-- The `while ((match = regex.exec(lrcText)) !== null)` loop of
`LyricsService.parseLRC` (part_001 lines 114-123): at each match the
trailing `(.*)` capture greedily takes the rest of the physical line, the
capture is trimmed and pushed (with the computed time) when non-empty, and
scanning resumes after the capture.  The fuel argument bounds the number of
loop steps; every step consumes at least one character, so the initial
length of the text always suffices. -/
def parseLRCScanAux : ℕ → List Char → List LyricEvent
  | 0, _ => []
  | _ + 1, [] => []
  | fuel + 1, c :: cs =>
    match matchTag2At (c :: cs) with
    | some (time, suffix) =>
      let capture := suffix.takeWhile (fun ch => !(isLineTerminator ch))
      let rest := suffix.dropWhile (fun ch => !(isLineTerminator ch))
      let text := trimChars capture
      (if text = [] then [] else [{ time := time, text := String.mk text }])
        ++ parseLRCScanAux fuel rest
    | none => parseLRCScanAux fuel cs

/-- The unsorted event list pushed by `parseLRC` (part_001 lines 110-123),
in input order. -/
def parseLRCRaw (s : String) : List LyricEvent :=
  parseLRCScanAux s.data.length s.data

/-- Source `LyricsService.parseLRC(lrcText)` (src/unnamed/part_001 lines
109-125). -/
def parseLRC (s : String) : List LyricEvent := sortEvents (parseLRCRaw s)

/-! ## Helper lemmas for the lookup scans -/

theorem syncScanRev_of_forall_lt {q : ℚ} :
    ∀ {rs : List ℚ}, (∀ t ∈ rs, q < t) → syncScanRev q rs = -1
  | [], _ => rfl
  | t :: ts, h => by
    have ht : ¬ (t ≤ q) := not_le.mpr (h t (List.mem_cons_self t ts))
    have ih := syncScanRev_of_forall_lt (fun x hx => h x (List.mem_cons_of_mem t hx))
    simp [syncScanRev, ht, ih]

theorem syncScanRev_append_of_forall_lt {q : ℚ} {p rs : List ℚ}
    (h : ∀ t ∈ p, q < t) : syncScanRev q (p ++ rs) = syncScanRev q rs := by
  induction p with
  | nil => rfl
  | cons t ts ih =>
    have ht : ¬ (t ≤ q) := not_le.mpr (h t (List.mem_cons_self t ts))
    have ih' := ih (fun x hx => h x (List.mem_cons_of_mem t hx))
    simp [syncScanRev, ht, ih']

/-- Characterization of the backward scan on a strictly increasing time list
`ts`: if `ts.get i ≤ q` and the next time (when it exists) exceeds `q`,
the scan returns `i`. -/
theorem syncScanRev_reverse_eq (ts : List ℚ) (q : ℚ) (i : Fin ts.length)
    (hsort : ∀ j k : Fin ts.length, j < k → ts.get j < ts.get k)
    (hle : ts.get i ≤ q)
    (hnext : ∀ h : (i : ℕ) + 1 < ts.length, q < ts.get ⟨(i : ℕ) + 1, h⟩) :
    syncScanRev q ts.reverse = ((i : ℕ) : Int) := by
  have hi : (i : ℕ) < ts.length := i.isLt
  have htake : ts.take ((i : ℕ) + 1) = ts.take (i : ℕ) ++ [ts.get i] := by
    rw [List.take_succ]
    congr 1
    rw [List.getElem?_eq_getElem hi]
    rfl
  have hdecomp : ts.reverse =
      (ts.drop ((i : ℕ) + 1)).reverse ++ ts.get i :: (ts.take (i : ℕ)).reverse := by
    conv_lhs => rw [← List.take_append_drop ((i : ℕ) + 1) ts]
    rw [List.reverse_append, htake, List.reverse_append]
    simp
  have hdropgt : ∀ t ∈ (ts.drop ((i : ℕ) + 1)).reverse, q < t := by
    intro t ht
    rw [List.mem_reverse] at ht
    obtain ⟨n, hn⟩ := List.mem_iff_get.mp ht
    have hlen : (n : ℕ) < ts.length - ((i : ℕ) + 1) := by
      have hn' := n.isLt
      simp only [List.length_drop] at hn'
      exact hn'
    have hidx : (i : ℕ) + 1 + (n : ℕ) < ts.length := by omega
    have hval : (ts.drop ((i : ℕ) + 1)).get n = ts.get ⟨(i : ℕ) + 1 + (n : ℕ), hidx⟩ := by
      have hgd := List.getElem_drop ts (i := (i : ℕ) + 1) (j := (n : ℕ))
        (h := by simpa [List.length_drop] using hlen)
      simp only [List.get_eq_getElem]
      exact hgd
    have hsucc : (i : ℕ) + 1 < ts.length := by omega
    have h1 : q < ts.get ⟨(i : ℕ) + 1, hsucc⟩ := hnext hsucc
    have hle2 : ts.get ⟨(i : ℕ) + 1, hsucc⟩ ≤ ts.get ⟨(i : ℕ) + 1 + (n : ℕ), hidx⟩ := by
      rcases Nat.eq_zero_or_pos (n : ℕ) with h0 | hpos
      · apply le_of_eq
        congr 1
        exact Fin.ext (show (i : ℕ) + 1 = (i : ℕ) + 1 + (n : ℕ) by omega)
      · exact le_of_lt (hsort _ _
          (Fin.lt_def.mpr (show (i : ℕ) + 1 < (i : ℕ) + 1 + (n : ℕ) by omega)))
    rw [← hn, hval]
    exact lt_of_lt_of_le h1 hle2
  rw [hdecomp, syncScanRev_append_of_forall_lt hdropgt]
  have hle' : ts.get i ≤ q := hle
  have hstep : syncScanRev q (ts.get i :: (ts.take (i : ℕ)).reverse) =
      (((ts.take (i : ℕ)).reverse.length : ℕ) : Int) := by
    simp only [syncScanRev]
    rw [if_pos hle']
  rw [hstep]
  congr 1
  rw [List.length_reverse, List.length_take]
  omega

/-- The part_001 scan is the app.js scan on times shifted down by `0.1`. -/
theorem syncLyricsScanRev_eq_shift (q : ℚ) :
    ∀ rs : List ℚ, syncLyricsScanRev q rs = syncScanRev q (rs.map (fun t => t - 0.1))
  | [] => rfl
  | t :: ts => by
    by_cases h : t - 0.1 ≤ q <;>
      simp [syncLyricsScanRev, syncScanRev, h, syncLyricsScanRev_eq_shift q ts]

theorem syncScanRev_reverse_eq_neg_one (ts : List ℚ) (q : ℚ)
    (hsort : ∀ j k : Fin ts.length, j < k → ts.get j < ts.get k)
    (hall : ∀ h0 : 0 < ts.length, q < ts.get ⟨0, h0⟩) :
    syncScanRev q ts.reverse = -1 := by
  apply syncScanRev_of_forall_lt
  intro t ht
  rw [List.mem_reverse] at ht
  obtain ⟨n, hn⟩ := List.mem_iff_get.mp ht
  have h0 : 0 < ts.length := lt_of_le_of_lt (Nat.zero_le _) n.isLt
  have hq0 : q < ts.get ⟨0, h0⟩ := hall h0
  rcases Nat.eq_zero_or_pos (n : ℕ) with hz | hpos
  · rw [← hn]
    have : n = ⟨0, h0⟩ := Fin.ext hz
    rw [this]
    exact hq0
  · rw [← hn]
    exact lt_trans hq0 (hsort ⟨0, h0⟩ n (Fin.lt_def.mpr hpos))

/-! ## Claim C1 -/

/-- Claim C1, amended. For a track with strictly increasing event times
`t0 < t1 < ... < tn`:
the app.js lookup `syncLyricsToTime` returns `-1` for `q < t0`, `i` for
`ti ≤ q < t(i+1)` and `n` for `q ≥ tn` — exactly as the claim states —
while the part_001 lookup `syncLyrics` computes the same lookup against
times shifted down by `0.1`: it returns `-1` for `q < t0 - 0.1`, `i` for
`ti - 0.1 ≤ q < t(i+1) - 0.1` and `n` for `q ≥ tn - 0.1`.  (The `i` cases
below subsume the `n` cases: for the last index the bound on the next
event is vacuous.) -/
theorem lookup_spec (lines : List LyricEvent) (q : ℚ) (hs : strictlySortedTimes lines) :
    ((∀ h0 : 0 < lines.length, q < (lines.get ⟨0, h0⟩).time) →
        syncLyricsToTime lines q = -1) ∧
    (∀ i : Fin lines.length, (lines.get i).time ≤ q →
        (∀ hn : (i : ℕ) + 1 < lines.length, q < (lines.get ⟨(i : ℕ) + 1, hn⟩).time) →
        syncLyricsToTime lines q = ((i : ℕ) : Int)) ∧
    ((∀ h0 : 0 < lines.length, q < (lines.get ⟨0, h0⟩).time - 0.1) →
        syncLyrics lines q = -1) ∧
    (∀ i : Fin lines.length, (lines.get i).time - 0.1 ≤ q →
        (∀ hn : (i : ℕ) + 1 < lines.length, q < (lines.get ⟨(i : ℕ) + 1, hn⟩).time - 0.1) →
        syncLyrics lines q = ((i : ℕ) : Int)) := by
  have hlen : (lines.map LyricEvent.time).length = lines.length := List.length_map _ _
  have hlenS : (lines.map (fun e => e.time - 0.1)).length = lines.length := List.length_map _ _
  have hsortT : ∀ j k : Fin (lines.map LyricEvent.time).length, j < k →
      (lines.map LyricEvent.time).get j < (lines.map LyricEvent.time).get k := by
    intro j k hjk
    have hj : (j : ℕ) < lines.length := by rw [← hlen]; exact j.isLt
    have hk : (k : ℕ) < lines.length := by rw [← hlen]; exact k.isLt
    have := hs ⟨j, hj⟩ ⟨k, hk⟩ (Fin.lt_def.mpr (Fin.lt_def.mp hjk))
    simpa [List.get_eq_getElem, List.getElem_map] using this
  have hsortS : ∀ j k : Fin (lines.map (fun e => e.time - 0.1)).length, j < k →
      (lines.map (fun e => e.time - 0.1)).get j < (lines.map (fun e => e.time - 0.1)).get k := by
    intro j k hjk
    have hj : (j : ℕ) < lines.length := by rw [← hlenS]; exact j.isLt
    have hk : (k : ℕ) < lines.length := by rw [← hlenS]; exact k.isLt
    have := hs ⟨j, hj⟩ ⟨k, hk⟩ (Fin.lt_def.mpr (Fin.lt_def.mp hjk))
    simp only [List.get_eq_getElem, List.getElem_map]
    exact sub_lt_sub_right this _
  have hshift : syncLyrics lines q =
      syncScanRev q ((lines.map (fun e => e.time - 0.1)).reverse) := by
    unfold syncLyrics
    rw [syncLyricsScanRev_eq_shift, List.map_reverse, List.map_map]
    rfl
  refine ⟨?_, ?_, ?_, ?_⟩
  · intro hall
    apply syncScanRev_reverse_eq_neg_one _ _ hsortT
    intro h0
    have h0' : 0 < lines.length := by rw [← hlen]; exact h0
    have := hall h0'
    simpa [List.get_eq_getElem, List.getElem_map] using this
  · intro i hle hnext
    have hi : (i : ℕ) < (lines.map LyricEvent.time).length := by rw [hlen]; exact i.isLt
    have h := syncScanRev_reverse_eq (lines.map LyricEvent.time) q ⟨(i : ℕ), hi⟩ hsortT
      (by simpa [List.get_eq_getElem, List.getElem_map] using hle)
      (by
        intro hn1
        have hn1' : (i : ℕ) + 1 < lines.length := by simpa using hn1
        have := hnext hn1'
        simpa [List.get_eq_getElem, List.getElem_map] using this)
    exact h
  · intro hall
    rw [hshift]
    apply syncScanRev_reverse_eq_neg_one _ _ hsortS
    intro h0
    have h0' : 0 < lines.length := by rw [← hlenS]; exact h0
    have := hall h0'
    simpa [List.get_eq_getElem, List.getElem_map] using this
  · intro i hle hnext
    rw [hshift]
    have hi : (i : ℕ) < (lines.map (fun e => e.time - 0.1)).length := by
      rw [hlenS]; exact i.isLt
    have h := syncScanRev_reverse_eq (lines.map (fun e => e.time - 0.1)) q ⟨(i : ℕ), hi⟩ hsortS
      (by simpa [List.get_eq_getElem, List.getElem_map] using hle)
      (by
        intro hn1
        have hn1' : (i : ℕ) + 1 < lines.length := by simpa using hn1
        have := hnext hn1'
        simpa [List.get_eq_getElem, List.getElem_map] using this)
    exact h

/-- Witness for C1 (amended): on the strictly sorted track
`[{1,"a"}, {2,"b"}]` at query `3/2` (so `t0 ≤ q < t1`), the app.js lookup
returns index `0`. -/
theorem lookup_spec_witness :
    strictlySortedTimes [⟨1, "a"⟩, ⟨2, "b"⟩] ∧
    syncLyricsToTime [⟨1, "a"⟩, ⟨2, "b"⟩] (3/2) = 0 := by
  have hs : strictlySortedTimes [⟨1, "a"⟩, ⟨2, "b"⟩] := by decide
  refine ⟨hs, ?_⟩
  have h := (lookup_spec [⟨1, "a"⟩, ⟨2, "b"⟩] (3/2) hs).2.1
    ⟨0, by norm_num⟩ (by norm_num) (by intro hn; norm_num)
  simpa using h

/-- Claim C1, counterexample. On the (trivially strictly sorted) track
`[{1,"A"}]` at query `q = 19/20 < t0 = 1`, the claim demands index `-1`;
the part_001 lookup `syncLyrics` returns `0` — its `- 0.1` lead makes a
line active up to `0.1 s` before its timestamp. -/
theorem lookup_counterexample :
    strictlySortedTimes [⟨1, "A"⟩] ∧ (19/20 : ℚ) < 1 ∧
    syncLyrics [⟨1, "A"⟩] (19/20) = 0 ∧ (0 : Int) ≠ -1 := by
  refine ⟨by decide, by norm_num, ?_, by decide⟩
  show syncLyricsScanRev (19/20) [1] = 0
  rw [syncLyricsScanRev]
  rw [if_pos (by norm_num)]
  rfl

/-! ## Helper lemmas for the parsers -/

theorem scanTagsAux_of_no_tag (cs : List Char) : ∀ pos li : ℕ,
    hasTagIn cs = false → scanTagsAux cs 0 pos li = ([], li) := by
  induction cs with
  | nil =>
    intro pos li _
    rfl
  | cons c cs ih =>
    intro pos li h
    simp only [hasTagIn, Bool.or_eq_false_iff] at h
    have hm : matchTagAt (c :: cs) = none := by
      cases hmm : matchTagAt (c :: cs) with
      | none => rfl
      | some v =>
        rw [hmm] at h
        simp at h
    simp only [scanTagsAux, hm]
    exact ih (pos + 1) li h.2

theorem lineEvents_of_no_tag (line : List Char) (h : hasTagIn line = false) :
    lineEvents line = [] := by
  unfold lineEvents
  rw [scanTagsAux_of_no_tag line 0 0 h]
  simp

theorem splitLines_append (l1 l2 : List Char) (h : '\n' ∉ l1) :
    splitLines (l1 ++ '\n' :: l2) = l1 :: splitLines l2 := by
  induction l1 with
  | nil => simp [splitLines]
  | cons c l1 ih =>
    have hc : ¬ (c = '\n') := by
      intro hh
      apply h
      rw [hh]
      exact List.mem_cons_self _ _
    have h' : '\n' ∉ l1 := fun hh => h (List.mem_cons_of_mem _ hh)
    show splitLines (c :: (l1 ++ '\n' :: l2)) = (c :: l1) :: splitLines l2
    simp only [splitLines]
    rw [if_neg hc, ih h']

theorem splitLines_of_no_newline (cs : List Char) (h : '\n' ∉ cs) :
    splitLines cs = [cs] := by
  induction cs with
  | nil => rfl
  | cons c cs ih =>
    have hc : ¬ (c = '\n') := by
      intro hh
      apply h
      rw [hh]
      exact List.mem_cons_self _ _
    have h' : '\n' ∉ cs := fun hh => h (List.mem_cons_of_mem _ hh)
    simp only [splitLines]
    rw [if_neg hc, ih h']

/-- Stability of one insertion step: inserting `e` (which arrived later
than everything in `l`) never passes an element of equal time, because the
scan of `orderedInsert` only passes elements with strictly smaller time. -/
theorem filter_time_orderedInsert (e : LyricEvent) (t : ℚ) :
    ∀ l : List LyricEvent,
      (List.orderedInsert evLE e l).filter (fun x => decide (x.time = t)) =
        if e.time = t then e :: l.filter (fun x => decide (x.time = t))
        else l.filter (fun x => decide (x.time = t))
  | [] => by
    by_cases h : e.time = t <;> simp [List.orderedInsert, h]
  | b :: l => by
    by_cases hb : evLE e b
    · simp only [List.orderedInsert, if_pos hb]
      by_cases h : e.time = t <;> simp [h]
    · have hblt : b.time < e.time := not_le.mp hb
      have hIH := filter_time_orderedInsert e t l
      simp only [List.orderedInsert, if_neg hb]
      by_cases h : e.time = t
      · have hbt : ¬ (b.time = t) := by
          intro hh
          rw [h] at hblt
          rw [hh] at hblt
          exact lt_irrefl t hblt
        simp [List.filter_cons, h, hbt, hIH]
      · simp [List.filter_cons, h, hIH]

/-- Stability of the modelled `sort`: for each time value, the events
carrying it appear in the sorted output exactly in their input order. -/
theorem filter_time_sortEvents (t : ℚ) :
    ∀ l : List LyricEvent,
      (sortEvents l).filter (fun x => decide (x.time = t)) =
        l.filter (fun x => decide (x.time = t))
  | [] => rfl
  | e :: l => by
    have hIH : (List.insertionSort evLE l).filter (fun x => decide (x.time = t)) =
        l.filter (fun x => decide (x.time = t)) := filter_time_sortEvents t l
    show (List.orderedInsert evLE e (List.insertionSort evLE l)).filter
        (fun x => decide (x.time = t)) = _
    rw [filter_time_orderedInsert]
    by_cases h : e.time = t
    · rw [if_pos h, hIH]
      simp [List.filter_cons, h]
    · rw [if_neg h, hIH]
      simp [List.filter_cons, h]

/-! ## Claims C6, C7, C8, C9 -/

/-- Claim C6 (confirmed). The parser right-pads fractional digits with
zeros to 3 digits before reading them as milliseconds:
`parse("[00:01.50]Hello")` is exactly one event with time `1.5` seconds
(`.50` padded to `500` ms, not read as `50` ms) and text `"Hello"`, and the
already-3-digit spelling `"[00:01.500]Hello"` parses to the same event. -/
theorem parse_fraction_padding :
    parseLrcLyrics "[00:01.50]Hello" = [⟨3/2, "Hello"⟩] ∧
    parseLrcLyrics "[00:01.500]Hello" = [⟨3/2, "Hello"⟩] := by
  have d0 : digitVal '0' = 0 := by decide
  have d1 : digitVal '1' = 1 := by decide
  have d5 : digitVal '5' = 5 := by decide
  constructor
  · have h1 : parseLrcLyrics "[00:01.50]Hello" =
        [⟨((10 * digitVal '0' + digitVal '0' : ℕ) : ℚ) * 60
          + ((10 * digitVal '0' + digitVal '1' : ℕ) : ℚ)
          + ((100 * digitVal '5' + 10 * digitVal '0' : ℕ) : ℚ) / 1000, "Hello"⟩] := rfl
    rw [h1, d0, d1, d5]
    norm_num
  · have h1 : parseLrcLyrics "[00:01.500]Hello" =
        [⟨((10 * digitVal '0' + digitVal '0' : ℕ) : ℚ) * 60
          + ((10 * digitVal '0' + digitVal '1' : ℕ) : ℚ)
          + ((100 * digitVal '5' + 10 * digitVal '0' + digitVal '0' : ℕ) : ℚ) / 1000,
          "Hello"⟩] := rfl
    rw [h1, d0, d1, d5]
    norm_num

/-- Claim C7, amended. In app.js `parseLrcLyrics`, all leading timestamp
tags of a line attach to the same trailing text (the substring after the
last tag, trimmed), one event per tag:
`parse("[00:01.00][00:05.00]Chorus")` yields exactly the two events
`{1.0, "Chorus"}` and `{5.0, "Chorus"}`.  In part_001
`LyricsService.parseLRC` this fails (see the counterexample): its `(.*)`
capture attaches each tag to the whole remainder of the line, so the first
tag swallows the later ones into the text. -/
theorem multi_tag_same_text :
    parseLrcLyrics "[00:01.00][00:05.00]Chorus" = [⟨1, "Chorus"⟩, ⟨5, "Chorus"⟩] := by
  have h1 : parsedRaw "[00:01.00][00:05.00]Chorus" =
      [⟨((10 * digitVal '0' + digitVal '0' : ℕ) : ℚ) * 60
        + ((10 * digitVal '0' + digitVal '1' : ℕ) : ℚ)
        + ((100 * digitVal '0' + 10 * digitVal '0' : ℕ) : ℚ) / 1000, "Chorus"⟩,
       ⟨((10 * digitVal '0' + digitVal '0' : ℕ) : ℚ) * 60
        + ((10 * digitVal '0' + digitVal '5' : ℕ) : ℚ)
        + ((100 * digitVal '0' + 10 * digitVal '0' : ℕ) : ℚ) / 1000, "Chorus"⟩] := rfl
  show sortEvents (parsedRaw "[00:01.00][00:05.00]Chorus") = _
  rw [h1]
  have d0 : digitVal '0' = 0 := by decide
  have d1 : digitVal '1' = 1 := by decide
  have d5 : digitVal '5' = 5 := by decide
  rw [d0, d1, d5]
  norm_num [sortEvents, List.insertionSort, List.orderedInsert, evLE]

/-- Claim C7, counterexample. `LyricsService.parseLRC` (part_001) does not
attach both tags of `"[00:01.00][00:05.00]Chorus"` to the text `"Chorus"`:
it returns the single event `{1.0, "[00:05.00]Chorus"}` — the second tag is
swallowed into the first match's `(.*)` capture — not two events. -/
theorem multi_tag_counterexample :
    parseLRC "[00:01.00][00:05.00]Chorus" = [⟨1, "[00:05.00]Chorus"⟩] ∧
    (parseLRC "[00:01.00][00:05.00]Chorus").length ≠ 2 := by
  have h1 : parseLRC "[00:01.00][00:05.00]Chorus" =
      [⟨((10 * digitVal '0' + digitVal '0' : ℕ) : ℚ) * 60
        + ((10 * digitVal '0' + digitVal '1' : ℕ) : ℚ)
        + ((100 * digitVal '0' + 10 * digitVal '0' : ℕ) : ℚ) / 1000,
        "[00:05.00]Chorus"⟩] := rfl
  have d0 : digitVal '0' = 0 := by decide
  have d1 : digitVal '1' = 1 := by decide
  constructor
  · rw [h1, d0, d1]
    norm_num
  · rw [h1]
    simp

/-- Claim C8 (confirmed). The parser is a total function — in this
embedding `parseLrcLyrics` is defined for every input string and always
returns a (possibly empty) event list — and bracketed content that does not
match the timestamp pattern is inert: a line containing no tag match (e.g.
malformed bracket contents) contributes no events and leaves the rest of
the parse unchanged, and an input consisting only of such a line parses to
the empty sequence. -/
theorem parse_total_malformed (line rest : String) (hnl : '\n' ∉ line.data)
    (hmal : hasTagIn line.data = false) :
    parseLrcLyrics (line ++ "\n" ++ rest) = parseLrcLyrics rest ∧
    parseLrcLyrics line = [] := by
  constructor
  · unfold parseLrcLyrics parsedRaw
    have hdata : (line ++ "\n" ++ rest).data = line.data ++ '\n' :: rest.data := by
      have h2 : ("\n" : String).data = ['\n'] := by decide
      rw [String.data_append, String.data_append, h2, List.append_assoc,
        List.singleton_append]
    rw [hdata, splitLines_append _ _ hnl, List.map_cons, List.flatten_cons,
      lineEvents_of_no_tag _ hmal, List.nil_append]
  · unfold parseLrcLyrics parsedRaw
    rw [splitLines_of_no_newline _ hnl, List.map_cons,
      lineEvents_of_no_tag _ hmal]
    rfl

/-- Witness for C8: the malformed line `"[oops]Hello"` (bracket content
does not match the tag pattern) is transparent before a well-formed line,
and alone it parses to the empty sequence. -/
theorem parse_total_malformed_witness :
    ('\n' ∉ "[oops]Hello".data ∧ hasTagIn "[oops]Hello".data = false) ∧
    parseLrcLyrics ("[oops]Hello" ++ "\n" ++ "[00:02.00]World") =
      parseLrcLyrics "[00:02.00]World" ∧
    parseLrcLyrics "[oops]Hello" = [] :=
  ⟨⟨by decide, by decide⟩,
   (parse_total_malformed "[oops]Hello" "[00:02.00]World" (by decide) (by decide)).1,
   (parse_total_malformed "[oops]Hello" "[00:02.00]World" (by decide) (by decide)).2⟩

/-- Claim C9 (confirmed). For every input string, both parsers return a
sequence sorted ascending by time (`evLE`), and the sort is stable: for
every time value `t`, the subsequence of output events with time `t` is
exactly the subsequence of pre-sort (input-order) events with time `t`. -/
theorem parse_sorted_stable (s : String) :
    List.Sorted evLE (parseLrcLyrics s) ∧
    (∀ t : ℚ, (parseLrcLyrics s).filter (fun x => decide (x.time = t)) =
        (parsedRaw s).filter (fun x => decide (x.time = t))) ∧
    List.Sorted evLE (parseLRC s) ∧
    (∀ t : ℚ, (parseLRC s).filter (fun x => decide (x.time = t)) =
        (parseLRCRaw s).filter (fun x => decide (x.time = t))) :=
  ⟨List.sorted_insertionSort evLE _, fun t => filter_time_sortEvents t _,
   List.sorted_insertionSort evLE _, fun t => filter_time_sortEvents t _⟩

/-! ## Claims C2, C3, C4, C10, C5 -/

/-- Claim C2 (confirmed). For every clock state and every pair of times,
`correctDrift(authoritative, estimated)` leaves `driftCorrection` unchanged
when `|authoritative - estimated| ≤ 0.2`, and otherwise changes
`driftCorrection` by exactly `0.3 * (authoritative - estimated)`. -/
theorem correctDrift_spec (e : AudioSyncEngine) (v s : ℚ) :
    (|v - s| ≤ 0.2 → (correctDrift e v s).driftCorrection = e.driftCorrection) ∧
    (0.2 < |v - s| →
      (correctDrift e v s).driftCorrection = e.driftCorrection + 0.3 * (v - s)) := by
  constructor
  · intro h
    have hn : ¬ (0.2 < |v - s|) := not_lt.mpr h
    simp [correctDrift, hn]
  · intro h
    simp [correctDrift, h]
    ring

/-- Witness for C2: at `e = ⟨0,0,0⟩`, `correctDrift 1 1` (drift `0 ≤ 0.2`)
keeps `driftCorrection = 0`, and `correctDrift 1 0` (drift `1 > 0.2`)
sets it to `0.3`. -/
theorem correctDrift_spec_witness :
    (correctDrift ⟨0, 0, 0⟩ 1 1).driftCorrection = 0 ∧
    (correctDrift ⟨0, 0, 0⟩ 1 0).driftCorrection = 0.3 := by
  constructor
  · have h := (correctDrift_spec ⟨0, 0, 0⟩ 1 1).1 (by norm_num)
    rw [h]
  · have h := (correctDrift_spec ⟨0, 0, 0⟩ 1 0).2 (by norm_num)
    rw [h]
    norm_num

/-- Claim C3, counterexample. The claim "immediately after `start(T)` the
computed estimate equals `T`" fails: from the state with
`driftCorrection = 1` (and `pausedTime = 0`), after `start` at reference
time `T = 2` (audio-context instant `10`), `getAccurateTime` at that same
instant is `3`, not `2`. -/
theorem start_estimate_counterexample :
    getAccurateTime (start ⟨0, 0, 1⟩ 10 2) 10 = 3 ∧ (3 : ℚ) ≠ 2 := by
  constructor
  · simp [getAccurateTime, start]
    norm_num
  · norm_num

/-- Claim C3, amended. Immediately after `start(T)` — at the same
audio-context instant — the computed estimate is
`max 0 (T + pausedTime + driftCorrection)`: the call re-anchors only the
epoch and the prior `pausedTime` and `driftCorrection` contributions
persist.  It equals `T` exactly when `pausedTime = 0`,
`driftCorrection = 0` and `0 ≤ T`. -/
theorem start_estimate (e : AudioSyncEngine) (ctxTime T : ℚ) :
    getAccurateTime (start e ctxTime T) ctxTime =
      max 0 (T + e.pausedTime + e.driftCorrection) ∧
    (e.pausedTime = 0 → e.driftCorrection = 0 → 0 ≤ T →
      getAccurateTime (start e ctxTime T) ctxTime = T) := by
  have hbase : getAccurateTime (start e ctxTime T) ctxTime =
      max 0 (T + e.pausedTime + e.driftCorrection) := by
    unfold getAccurateTime start
    congr 1
    ring
  refine ⟨hbase, ?_⟩
  intro hp hd hT
  rw [hbase, hp, hd]
  simpa using hT

/-- Witness for C3 (amended): from the fresh state `⟨3,0,0⟩`, after
`start 10 2` the estimate at instant `10` is `max 0 (2+0+0)` and equals `2`. -/
theorem start_estimate_witness :
    getAccurateTime (start ⟨3, 0, 0⟩ 10 2) 10 = max 0 (2 + 0 + 0) ∧
    getAccurateTime (start ⟨3, 0, 0⟩ 10 2) 10 = 2 :=
  ⟨(start_estimate ⟨3, 0, 0⟩ 10 2).1,
   (start_estimate ⟨3, 0, 0⟩ 10 2).2 rfl rfl (by norm_num)⟩

/-- Claim C4, code bug. The method `pause(T)` does not freeze the secondary
clock: it only records `pausedTime = T`, while `getAccurateTime` keeps
adding the still-running `audioContext.currentTime - startTime` term.  From
the fresh state, after `pause 5`, the estimate at audio-context instants
`10` and `11` is `15` and `16`: it keeps advancing (and is not `5` at
all). -/
theorem pause_not_frozen :
    getAccurateTime (pause ⟨0, 0, 0⟩ 5) 10 = 15 ∧
    getAccurateTime (pause ⟨0, 0, 0⟩ 5) 11 = 16 ∧
    (15 : ℚ) ≠ 16 := by
  refine ⟨?_, ?_, by norm_num⟩ <;>
    · simp [getAccurateTime, pause]
      norm_num

/-- Claim C10 (confirmed). The method `correctDrift` modifies at most the
`driftCorrection` field: `startTime` and `pausedTime` are unchanged by
every call. -/
theorem correctDrift_frame (e : AudioSyncEngine) (v s : ℚ) :
    (correctDrift e v s).startTime = e.startTime ∧
    (correctDrift e v s).pausedTime = e.pausedTime := by
  unfold correctDrift
  dsimp only
  split <;> exact ⟨rfl, rfl⟩

/-- Claim C5, code bug. On a tick where the transport reports duration `0`,
the progress computation `(t / duration) * 100` of `updateProgress`
(app.js) and `syncFrame` (part_001) is neither skipped nor clamped: it
produces `NaN` (for `t = 0`, the actual state while buffering) or a signed
infinity, which is then written into the progress display. -/
theorem progress_division_artifact :
    progressPercent 0 0 = JSNum.nan ∧
    progressPercent 1 0 = JSNum.posInf ∧
    progressPercent (-1) 0 = JSNum.negInf := by
  refine ⟨?_, ?_, ?_⟩ <;> rfl

end Karaoke
